import Mathlib

/-!
Shallow embedding of the FOMC-thesis price pipeline
(`regressions/run_horizon_sweep.py`, `regressions/build_zq_surprise.py`,
`regressions/run_clip_level_regression.py`,
`regressions/run_per_emotion_regressions.py`).

Timestamps are int64 nanoseconds, embedded as `ℤ`; epoch seconds use Python
floor division (`Int.fdiv`).  Prices are floats in the source; the series
pipeline embeds them as `ℚ` (only field arithmetic is used there), while the
winsorization helpers, which take a standard deviation (a square root), are
embedded over `ℝ`.  A pandas `Series` indexed by sorted keys is embedded as a
sorted association list; `NaN`/`None` results are embedded as `Option`.
-/

namespace Fomc

/-- One tick row of the market-data parquet: `symbol`, `ts_event`
(int64 UTC nanoseconds), `price`. -/
structure Tick where
  symbol : String
  ts_event : ℤ
  price : ℚ
deriving Repr, DecidableEq

/-- Nanoseconds per second (`1_000_000_000`). -/
def nsPerSec : ℤ := 1000000000

/-- `ts_event.astype("int64") // 1_000_000_000` — Python floor division. -/
def secOf (ts : ℤ) : ℤ := Int.fdiv ts nsPerSec

/-- Insert into a key-sorted list (helper for the embedding of pandas
`sort_values` / `sort_index` on an integer key). -/
def insertBy {α : Type*} (key : α → ℤ) (a : α) : List α → List α
  | [] => [a]
  | b :: l => if key a ≤ key b then a :: b :: l else b :: insertBy key a l

/-- Embedding of pandas `sort_values(key)` / `sort_index()`:
stable insertion sort on an integer key. -/
def sortBy {α : Type*} (key : α → ℤ) (l : List α) : List α :=
  l.foldr (insertBy key) []

/-- Worker for `dedupFirst`, carrying the set of keys already seen. -/
def dedupFirstGo {α : Type*} (key : α → ℤ) (seen : List ℤ) : List α → List α
  | [] => []
  | a :: l =>
      if key a ∈ seen then dedupFirstGo key seen l
      else a :: dedupFirstGo key (key a :: seen) l

/-- Embedding of pandas `drop_duplicates(col)` with the default
`keep="first"`: keeps the first row of each key, in input order. -/
def dedupFirst {α : Type*} (key : α → ℤ) (l : List α) : List α :=
  dedupFirstGo key [] l

end Fomc

namespace HorizonSweep
open Fomc

/-- One (meeting, sym) entry of `build_price_cache`
(run_horizon_sweep.py lines 52–74): rows `(sec, price)` with
`sec = ts_event // 1e9`, ES prices divided by 100, then
`drop_duplicates("sec").sort_values("sec")`.  The tick `symbol` column is
never consulted. -/
def build_price_cache_entry (sym : String) (ticks : List Tick) : List (ℤ × ℚ) :=
  sortBy Prod.fst (dedupFirst Prod.fst
    (ticks.map fun t =>
      (secOf t.ts_event, if sym = "ES" then t.price / 100 else t.price)))

/-- Embedding of `series.loc[:t].iloc[-1]` on a key-sorted series:
the last row whose key is `≤ t`, `none` when there is no such row
(the `IndexError` caught by `add_forward_returns`). -/
def asOf (series : List (ℤ × ℚ)) (t : ℤ) : Option ℚ :=
  ((series.filter fun p => decide (p.1 ≤ t)).getLast?).map Prod.snd

/-- One `(row, horizon)` cell of `add_forward_returns`
(run_horizon_sweep.py lines 82–103): `p0 = series.loc[:t0].iloc[-1]`
(row unavailable when this fails), `p1 = series.loc[:t0+h].iloc[-1]`
falling back to `p0` on failure, and the cell is `p1 - p0`.  The horizon is
a plain integer offset (`HORIZONS = range(0, 301, 25)` at the call site). -/
def forwardDelta (series : List (ℤ × ℚ)) (t0 : ℤ) (h : ℤ) : Option ℚ :=
  match asOf series t0 with
  | none => none
  | some p0 => some ((asOf series (t0 + h)).getD p0 - p0)

end HorizonSweep

namespace BuildZqSurprise
open Fomc

/-- `MONTH_CODE` table of build_zq_surprise.py line 49 (futures month
letters); `'?'` stands for the `KeyError` on an out-of-range month. -/
def MONTH_CODE : ℕ → Char
  | 1 => 'F' | 2 => 'G' | 3 => 'H' | 4 => 'J' | 5 => 'K' | 6 => 'M'
  | 7 => 'N' | 8 => 'Q' | 9 => 'U' | 10 => 'V' | 11 => 'X' | 12 => 'Z'
  | _ => '?'

/-- `zq_symbol_for_meeting` (build_zq_surprise.py lines 58–62):
`f"ZQ{MONTH_CODE[m]}{year % 10}"`. -/
def zq_symbol_for_meeting (year month : ℕ) : String :=
  String.push (String.push "ZQ" (MONTH_CODE month)) (Nat.digitChar (year % 10))

/-- `zq_next_month_symbol` (build_zq_surprise.py lines 64–70):
month rolled forward by one, year incremented on December→January. -/
def zq_next_month_symbol (year month : ℕ) : String :=
  let m := month + 1
  let p := if m = 13 then (1, year + 1) else (m, year)
  String.push (String.push "ZQ" (MONTH_CODE p.1)) (Nat.digitChar (p.2 % 10))

/-- The regex `^ZQ[A-Z]\d$` of read_ticks (build_zq_surprise.py line 87):
exactly four characters `Z`, `Q`, an ASCII upper-case letter, a digit. -/
def matchesZQ (s : String) : Bool :=
  match s.toList with
  | [a, b, c, d] => a == 'Z' && b == 'Q' && c.isUpper && d.isDigit
  | _ => false

/-- The single-leg monthly-contract pattern `^<ROOT>[A-Z]\d$` for a
two-character instrument root, as the spec states it for ZQ, ES and ZT. -/
def matchesSingleLeg (root : String) (s : String) : Bool :=
  match root.toList, s.toList with
  | [r1, r2], [a, b, c, d] => a == r1 && b == r2 && c.isUpper && d.isDigit
  | _, _ => false

/-- Embedding of `read_ticks` (build_zq_surprise.py lines 72–91) after the
I/O and dtype plumbing: keep only symbols matching `^ZQ[A-Z]\d$`, then sort
by `ts_event`. -/
def read_ticks (ticks : List Tick) : List Tick :=
  sortBy (fun t => t.ts_event) (ticks.filter fun t => matchesZQ t.symbol)

/-- `last_price_in_window` (build_zq_surprise.py lines 93–98): last price of
the series with index in `[start_ts, end_ts]`, `None` when the window is
empty. -/
def last_price_in_window (series : List (ℤ × ℚ)) (start_ts end_ts : ℤ) :
    Option ℚ :=
  ((series.filter fun p =>
      decide (start_ts ≤ p.1) && decide (p.1 ≤ end_ts)).getLast?).map Prod.snd

/-- `calendar.monthrange(y, m)[1]`: days in the month, Gregorian leap rule.
(Out-of-range months raise in Python; theorems carry `1 ≤ m ≤ 12`.) -/
def monthrangeDays (year month : ℕ) : ℕ :=
  if month = 2 then
    (if year % 4 = 0 ∧ (year % 100 ≠ 0 ∨ year % 400 = 0) then 29 else 28)
  else if month = 4 ∨ month = 6 ∨ month = 9 ∨ month = 11 then 30
  else 31

/-- `PRE_SEC = 10 * 60` (seconds). -/
def PRE_SEC : ℤ := 10 * 60

/-- `POST_SEC = 10 * 60` (seconds). -/
def POST_SEC : ℤ := 10 * 60

/-- The per-meeting output dict of `compute_for_meeting`
(build_zq_surprise.py lines 110–126), with `np.nan` / `None` as `Option`. -/
structure SurpriseRecord where
  primary_symbol : String
  fallback_symbol : String
  symbol_used : Option String
  price_pre : Option ℚ
  price_post : Option ℚ
  implied_pre : Option ℚ
  implied_post : Option ℚ
  delta_implied_bps : Option ℚ
  days_in_month : ℕ
  days_remaining_after_announcement : ℤ
  scaling_factor : Option ℚ
  target_surprise_bps : Option ℚ
  notes : String
deriving Repr, DecidableEq

/-- One pass of the `for sym_try in (pri_sym, alt_sym)` loop body of
`compute_for_meeting` (build_zq_surprise.py lines 137–148): filter the day's
ticks to `sym`, skip when empty, build the ts-sorted price series and resolve
the last pre-window and post-window prices; succeed only when both exist. -/
def resolve_for_symbol (df_day : List Tick)
    (t_pre_start t_pre_end t_post_start t_post_end : ℤ) (sym : String) :
    Option (ℚ × ℚ) :=
  let sub := df_day.filter fun t => t.symbol == sym
  if sub.isEmpty then none
  else
    let series := sortBy Prod.fst (sub.map fun t => (t.ts_event, t.price))
    match last_price_in_window series t_pre_start t_pre_end,
          last_price_in_window series t_post_start t_post_end with
    | some p_pre, some p_post => some (p_pre, p_post)
    | _, _ => none

/-- `compute_for_meeting` (build_zq_surprise.py lines 100–173).  The event
time `t0` (14:30 US/Eastern converted to UTC by the timezone library) is
taken as an input in nanoseconds; the pre-window is
`[t0 - PRE_SEC, t0 - 1ms]`, the post-window `[t0, t0 + POST_SEC]`.  The
primary (meeting-month) symbol is tried first, the next-month symbol second;
the first symbol yielding both a pre and a post price wins. -/
def compute_for_meeting (year month day : ℕ) (t0 : ℤ) (df_day : List Tick) :
    SurpriseRecord :=
  let t_pre_start := t0 - PRE_SEC * nsPerSec
  let t_pre_end := t0 - 1000000
  let t_post_end := t0 + POST_SEC * nsPerSec
  let pri_sym := zq_symbol_for_meeting year month
  let alt_sym := zq_next_month_symbol year month
  let D := monthrangeDays year month
  let rem : ℤ := (D : ℤ) - (day : ℤ) + 1
  let sf : Option ℚ := if 0 < rem then some ((D : ℚ) / (rem : ℚ)) else none
  let resolved : Option (String × ℚ × ℚ) :=
    match resolve_for_symbol df_day t_pre_start t_pre_end t0 t_post_end
        pri_sym with
    | some pq => some (pri_sym, pq)
    | none =>
      match resolve_for_symbol df_day t_pre_start t_pre_end t0 t_post_end
          alt_sym with
      | some pq => some (alt_sym, pq)
      | none => none
  match resolved with
  | none =>
    { primary_symbol := pri_sym, fallback_symbol := alt_sym,
      symbol_used := none, price_pre := none, price_post := none,
      implied_pre := none, implied_post := none, delta_implied_bps := none,
      days_in_month := D, days_remaining_after_announcement := rem,
      scaling_factor := sf, target_surprise_bps := none,
      notes := "no trades for meeting-month or next-month symbol in event window" }
  | some (sym_used, p_pre, p_post) =>
    let imp_pre := 100 - p_pre
    let imp_post := 100 - p_post
    let delta_bps := (imp_post - imp_pre) * 100
    { primary_symbol := pri_sym, fallback_symbol := alt_sym,
      symbol_used := some sym_used, price_pre := some p_pre,
      price_post := some p_post, implied_pre := some imp_pre,
      implied_post := some imp_post, delta_implied_bps := some delta_bps,
      days_in_month := D, days_remaining_after_announcement := rem,
      scaling_factor := sf,
      target_surprise_bps := sf.map (fun f => delta_bps * f),
      notes := "" }

/-- The spec's "date plus one month" (month rolled forward, year incremented
across December→January), used to compare `zq_next_month_symbol` against
`zq_symbol_for_meeting` of the shifted date. -/
def specNextMonth (year month : ℕ) : ℕ × ℕ :=
  if month = 12 then (year + 1, 1) else (year, month + 1)

end BuildZqSurprise

namespace Winsor

/-- `s.mean()` as pandas computes it inside `std`: sum over length. -/
noncomputable def popMean (s : List ℝ) : ℝ := s.sum / s.length

/-- `s.std(ddof=0)`: population standard deviation,
`sqrt(Σ (x - mean)² / n)`. -/
noncomputable def popStd (s : List ℝ) : ℝ :=
  Real.sqrt ((s.map fun x => (x - popMean s) ^ 2).sum / s.length)

/-- `Series.clip(lo, hi)` on one value: `min (max x lo) hi`. -/
noncomputable def clipTo (lo hi x : ℝ) : ℝ := min (max x lo) hi

/-- `winsorize` of run_horizon_sweep.py lines 105–109:
`cap = sigma * s.std(ddof=0); s.clip(-cap, cap)` — no guard on `sigma`. -/
noncomputable def winsorize_hs (s : List ℝ) (sigma : ℝ) : List ℝ :=
  let cap := sigma * popStd s
  s.map (clipTo (-cap) cap)

/-- `winsorize` of run_clip_level_regression.py lines 82–87: Python
`if sigma and is_numeric_dtype(s)` guard — `sigma = 0.0` is falsy, so the
column is returned unchanged; otherwise clip at `±sigma·std`. -/
noncomputable def winsorize_clip (s : List ℝ) (sigma : ℝ) : List ℝ :=
  if sigma = 0 then s
  else
    let cap := sigma * popStd s
    s.map (clipTo (-cap) cap)

/-- `winsorize` of run_per_emotion_regressions.py lines 82–85:
`if not sigma: return s`, otherwise clip at `±sigma·std`. -/
noncomputable def winsorize_pe (s : List ℝ) (sigma : ℝ) : List ℝ :=
  if sigma = 0 then s
  else
    let cap := sigma * popStd s
    s.map (clipTo (-cap) cap)

end Winsor

/-! ## Supporting lemmas -/

namespace Fomc

theorem mem_insertBy {α : Type*} (key : α → ℤ) (a x : α) (l : List α) :
    x ∈ insertBy key a l ↔ x = a ∨ x ∈ l := by
  induction l with
  | nil => simp [insertBy]
  | cons b l ih =>
    by_cases h : key a ≤ key b
    · simp [insertBy, h]
    · simp [insertBy, h, ih]
      tauto

theorem mem_sortBy {α : Type*} (key : α → ℤ) (x : α) (l : List α) :
    x ∈ sortBy key l ↔ x ∈ l := by
  induction l with
  | nil => simp [sortBy]
  | cons b l ih =>
    simp only [sortBy, List.foldr_cons] at *
    rw [mem_insertBy, ih, List.mem_cons]

end Fomc

/-! ## Claim theorems -/

open Fomc HorizonSweep BuildZqSurprise Winsor

/-- C6: for every calendar date (the symbols depend only on its year and
month, both in range), the fallback contract symbol
`zq_next_month_symbol` equals the primary symbol `zq_symbol_for_meeting`
of the date shifted forward by one month, with December→January
incrementing the year and the trailing digit being that year's last
digit; leap-year Februaries are the `month = 2` cases. -/
theorem fallback_symbol_eq_primary_of_next_month (year month : ℕ)
    (h1 : 1 ≤ month) (h2 : month ≤ 12) :
    zq_next_month_symbol year month =
      zq_symbol_for_meeting (specNextMonth year month).1
        (specNextMonth year month).2 := by
  interval_cases month <;> rfl

/-- Witness for C6 at the December 2023 rollover. -/
theorem fallback_symbol_eq_primary_of_next_month_witness :
    (1 ≤ 12 ∧ 12 ≤ 12 ∧
      zq_next_month_symbol 2023 12 =
        zq_symbol_for_meeting (specNextMonth 2023 12).1
          (specNextMonth 2023 12).2) ∧
    specNextMonth 2023 12 = (2024, 1) ∧
    zq_next_month_symbol 2023 12 = "ZQF4" :=
  ⟨⟨by decide, by decide,
      fallback_symbol_eq_primary_of_next_month 2023 12 (by decide) (by decide)⟩,
    by decide, by decide⟩

/-- C3: per `(row, horizon)` cell of `add_forward_returns`: when the as-of
price at the anchor `t0` is unavailable the cell is unavailable (for every
horizon); when `p0` exists but the as-of price at `t0 + h` is unavailable
the cell is `0` (`p1` treated as `p0`); otherwise it is
`price(t0+h) - price(t0)`; and horizon `0` yields `0` whenever `p0`
exists. -/
theorem forwardDelta_resolution (series : List (ℤ × ℚ)) (t0 : ℤ) (h : ℤ) :
    (asOf series t0 = none → forwardDelta series t0 h = none) ∧
    (∀ p0, asOf series t0 = some p0 → asOf series (t0 + h) = none →
      forwardDelta series t0 h = some 0) ∧
    (∀ p0 p1, asOf series t0 = some p0 → asOf series (t0 + h) = some p1 →
      forwardDelta series t0 h = some (p1 - p0)) ∧
    (∀ p0, asOf series t0 = some p0 → forwardDelta series t0 0 = some 0) := by
  refine ⟨fun h0 => ?_, fun p0 h0 h1 => ?_, fun p0 p1 h0 h1 => ?_,
    fun p0 h0 => ?_⟩
  · simp [forwardDelta, h0]
  · simp [forwardDelta, h0, h1]
  · simp [forwardDelta, h0, h1]
  · simp [forwardDelta, h0]

/-- Witness for C3: each satisfiable branch exercised on a concrete
series. -/
theorem forwardDelta_resolution_witness :
    forwardDelta [((10 : ℤ), (5 : ℚ)), (20, 7)] 5 10 = none ∧
    forwardDelta [((10 : ℤ), (5 : ℚ)), (20, 7)] 10 (-100) = some 0 ∧
    forwardDelta [((10 : ℤ), (5 : ℚ)), (20, 7)] 10 10 = some (7 - 5) ∧
    forwardDelta [((10 : ℤ), (5 : ℚ)), (20, 7)] 10 0 = some 0 :=
  ⟨(forwardDelta_resolution _ 5 10).1 (by decide),
    (forwardDelta_resolution _ 10 (-100)).2.1 5 (by decide) (by decide),
    (forwardDelta_resolution _ 10 10).2.2.1 5 7 (by decide) (by decide),
    (forwardDelta_resolution _ 10 0).2.2.2 5 (by decide)⟩

/-- C2 (code bug): two ticks in the same epoch-second, in chronological
file order; `build_price_cache` (`drop_duplicates("sec")`, pandas default
`keep = "first"`) stores the FIRST tick's price `1` for second `10`,
while its own docstring ("1s last-trade series") and the spec call for
the last tick's price `2`. -/
theorem build_price_cache_entry_keeps_first_tick_of_second :
    (⟨"ZTZ5", 10500000000, 1⟩ : Tick).ts_event
        < (⟨"ZTZ5", 10900000000, 2⟩ : Tick).ts_event ∧
    secOf 10500000000 = 10 ∧ secOf 10900000000 = 10 ∧
    build_price_cache_entry "ZT"
        [⟨"ZTZ5", 10500000000, 1⟩, ⟨"ZTZ5", 10900000000, 2⟩] = [(10, 1)] ∧
    ((1 : ℚ) ≠ 2) := by
  refine ⟨by decide, by decide, by decide, by decide, by decide⟩

/-- C9 counterexample: a calendar-spread symbol does not match the
single-leg pattern for root `ZT`, yet its tick's price enters the ZT
price series of `build_price_cache` unchanged — the ES/ZT cache applies
no symbol filter. -/
theorem build_price_cache_entry_accepts_spread_symbol :
    matchesSingleLeg "ZT" "ZTZ5-ZTH6" = false ∧
    build_price_cache_entry "ZT" [⟨"ZTZ5-ZTH6", 10500000000, 5⟩]
      = [(10, 5)] := by
  refine ⟨by decide, by decide⟩

namespace Winsor

theorem popStd_pair (a b : ℝ) : popStd [a, b] = |a - b| / 2 := by
  have hm : popMean [a, b] = (a + b) / 2 := by
    simp [popMean]
  have hv : ((([a, b]).map fun x => (x - popMean [a, b]) ^ 2).sum /
      (([a, b] : List ℝ).length : ℝ)) = ((a - b) / 2) ^ 2 := by
    simp [hm]
    ring
  rw [popStd, hv, Real.sqrt_sq_eq_abs, abs_div]
  norm_num

theorem clipTo_idem (c x : ℝ) :
    clipTo (-c) c (clipTo (-c) c x) = clipTo (-c) c x := by
  simp only [clipTo]
  rcases le_total (-c) c with h | h <;>
    rcases le_total x (-c) with h1 | h1 <;>
    rcases le_total x c with h2 | h2 <;>
    simp [min_def, max_def] <;> split_ifs <;> linarith

end Winsor

/-- C7 counterexample: in `run_horizon_sweep.py`, `winsorize` with
`sigma = 0` does NOT return the column unchanged — the cap is
`0 * std = 0`, so `clip(-0, 0)` maps every value to `0`. -/
theorem winsorize_hs_sigma_zero_clips :
    winsorize_hs [0, 2] 0 ≠ [0, 2] ∧ winsorize_hs [0, 2] 0 = [0, 0] := by
  constructor
  · simp [winsorize_hs, clipTo]
  · simp [winsorize_hs, clipTo]

/-- C7 amended: `sigma = 0` disables capping in the `winsorize` of
`run_clip_level_regression.py` (falsy-`sigma` guard) and of
`run_per_emotion_regressions.py` (`if not sigma: return s`), but in
`run_horizon_sweep.py`'s guardless `winsorize` a zero `sigma` produces a
zero cap that clips every value of the column to `0`. -/
theorem winsorize_sigma_zero_behavior (s : List ℝ) :
    winsorize_clip s 0 = s ∧ winsorize_pe s 0 = s ∧
      winsorize_hs s 0 = s.map (fun _ => 0) := by
  have hclip : ∀ x : ℝ, clipTo 0 0 x = 0 :=
    fun x => min_eq_right (le_max_right x 0)
  refine ⟨by simp [winsorize_clip], by simp [winsorize_pe], ?_⟩
  show List.map (clipTo (-(0 * popStd s)) (0 * popStd s)) s = _
  rw [zero_mul, neg_zero]
  exact List.map_congr_left fun a _ => hclip a

/-- C8 counterexample: applying the horizon-sweep `winsorize` twice with
the same `sigma = 1 > 0` shrinks the column further, because the second
pass recomputes the standard deviation on the already-capped column:
`[0, 8] ↦ [0, 4] ↦ [0, 2]`. -/
theorem winsorize_hs_not_idempotent :
    (0 : ℝ) < 1 ∧
      winsorize_hs (winsorize_hs [0, 8] 1) 1 ≠ winsorize_hs [0, 8] 1 := by
  have h1 : winsorize_hs [(0 : ℝ), 8] 1 = [0, 4] := by
    have h := popStd_pair (0 : ℝ) 8
    norm_num at h
    simp [winsorize_hs, h, clipTo]
    norm_num
  have h2 : winsorize_hs [(0 : ℝ), 4] 1 = [0, 2] := by
    have h := popStd_pair (0 : ℝ) 4
    norm_num at h
    simp [winsorize_hs, h, clipTo]
    norm_num
  refine ⟨by norm_num, ?_⟩
  rw [h1, h2]
  simp

/-- C8 amended: the winsorization cap is idempotent only at a fixed cap:
re-clipping the winsorized column at the cap computed from the ORIGINAL
column (`sigma * popStd s`) changes nothing; the failure in the claim
comes solely from the second application recomputing the standard
deviation on the capped column. -/
theorem winsorize_hs_fixed_cap_idempotent (s : List ℝ) (sigma : ℝ) :
    (winsorize_hs s sigma).map
        (clipTo (-(sigma * popStd s)) (sigma * popStd s)) =
      winsorize_hs s sigma := by
  unfold winsorize_hs
  rw [List.map_map]
  exact List.map_congr_left fun a _ => clipTo_idem (sigma * popStd s) a

namespace Fomc

theorem dedupFirstGo_map_snd {β : Type*} (f : β → β) (seen : List ℤ)
    (l : List (ℤ × β)) :
    dedupFirstGo Prod.fst seen (l.map fun p => (p.1, f p.2)) =
      (dedupFirstGo Prod.fst seen l).map fun p => (p.1, f p.2) := by
  induction l generalizing seen with
  | nil => simp [dedupFirstGo]
  | cons a l ih =>
    by_cases h : a.1 ∈ seen <;> simp [dedupFirstGo, h, ih]

theorem insertBy_map_snd {β : Type*} (f : β → β) (a : ℤ × β)
    (l : List (ℤ × β)) :
    insertBy Prod.fst (a.1, f a.2) (l.map fun p => (p.1, f p.2)) =
      (insertBy Prod.fst a l).map fun p => (p.1, f p.2) := by
  induction l with
  | nil => simp [insertBy]
  | cons b l ih =>
    by_cases h : a.1 ≤ b.1 <;> simp [insertBy, h, ih]

theorem sortBy_map_snd {β : Type*} (f : β → β) (l : List (ℤ × β)) :
    sortBy Prod.fst (l.map fun p => (p.1, f p.2)) =
      (sortBy Prod.fst l).map fun p => (p.1, f p.2) := by
  induction l with
  | nil => simp [sortBy]
  | cons a l ih =>
    simp only [sortBy, List.foldr_cons, List.map_cons] at *
    rw [ih, insertBy_map_snd]

end Fomc

namespace HorizonSweep

theorem asOf_map_snd (f : ℚ → ℚ) (s : List (ℤ × ℚ)) (t : ℤ) :
    asOf (s.map fun p => (p.1, f p.2)) t = (asOf s t).map f := by
  have h1 : (Prod.snd ∘ fun p : ℤ × ℚ => (p.1, f p.2)) = f ∘ Prod.snd := rfl
  have h2 : ((fun p : ℤ × ℚ => decide (p.1 ≤ t)) ∘ fun p : ℤ × ℚ => (p.1, f p.2))
      = fun p : ℤ × ℚ => decide (p.1 ≤ t) := rfl
  simp [asOf, List.filter_map, Option.map_map, h1, h2]

end HorizonSweep

/-- C10: the forward-return price cache divides every ES tick price by
100 before it enters the per-second series, stores ZT prices unchanged
(the series is built from raw `(sec, price)` rows), and consequently
every ES as-of level and horizon delta is the corresponding
raw-price quantity divided by 100. -/
theorem es_prices_scaled_zt_unchanged (ticks : List Tick) (t0 h : ℤ) :
    build_price_cache_entry "ES" ticks =
      (build_price_cache_entry "ZT" ticks).map (fun p => (p.1, p.2 / 100)) ∧
    build_price_cache_entry "ZT" ticks =
      sortBy Prod.fst (dedupFirst Prod.fst
        (ticks.map fun t => (secOf t.ts_event, t.price))) ∧
    (∀ t : ℤ, asOf (build_price_cache_entry "ES" ticks) t =
      (asOf (build_price_cache_entry "ZT" ticks) t).map (fun x => x / 100)) ∧
    forwardDelta (build_price_cache_entry "ES" ticks) t0 h =
      (forwardDelta (build_price_cache_entry "ZT" ticks) t0 h).map
        (fun x => x / 100) := by
  have hne : ("ZT" : String) ≠ "ES" := by decide
  have hZT : build_price_cache_entry "ZT" ticks =
      sortBy Prod.fst (dedupFirst Prod.fst
        (ticks.map fun t => (secOf t.ts_event, t.price))) := by
    simp [build_price_cache_entry, hne]
  have hES : build_price_cache_entry "ES" ticks =
      sortBy Prod.fst (dedupFirst Prod.fst
        ((ticks.map fun t => (secOf t.ts_event, t.price)).map
          fun p => (p.1, p.2 / 100))) := by
    simp only [build_price_cache_entry, List.map_map]
    congr 1
  have e1 := dedupFirstGo_map_snd (fun x : ℚ => x / 100) []
      (ticks.map fun t => (secOf t.ts_event, t.price))
  have e2 := sortBy_map_snd (fun x : ℚ => x / 100)
      (dedupFirstGo Prod.fst [] (ticks.map fun t => (secOf t.ts_event, t.price)))
  have h1 : build_price_cache_entry "ES" ticks =
      (build_price_cache_entry "ZT" ticks).map fun p => (p.1, p.2 / 100) := by
    rw [hES, hZT]
    simp only [dedupFirst]
    simp only [e1, e2]
  have hAs : ∀ t : ℤ, asOf (build_price_cache_entry "ES" ticks) t =
      (asOf (build_price_cache_entry "ZT" ticks) t).map (fun x => x / 100) := by
    intro t
    rw [h1]
    exact asOf_map_snd (fun x => x / 100) _ t
  refine ⟨h1, hZT, hAs, ?_⟩
  unfold forwardDelta
  rw [hAs t0, hAs (t0 + h)]
  cases asOf (build_price_cache_entry "ZT" ticks) t0 with
  | none => simp
  | some p0 =>
    cases asOf (build_price_cache_entry "ZT" ticks) (t0 + h) with
    | none => simp [sub_div]
    | some p1 => simp [sub_div]

namespace Fomc

theorem getLast?_cons_of_ne_nil {α : Type*} (a : α) (L : List α) (h : L ≠ []) :
    (a :: L).getLast? = L.getLast? := by
  obtain ⟨c, L', rfl⟩ := List.exists_cons_of_ne_nil h
  exact List.getLast?_cons_cons

theorem getLast?_filter_of_last {α : Type*} (p : α → Bool) (l : List α)
    (h : l ≠ []) (hp : p (l.getLast h) = true) :
    (l.filter p).getLast? = some (l.getLast h) := by
  induction l with
  | nil => exact absurd rfl h
  | cons a l ih =>
    cases l with
    | nil =>
      simp only [List.getLast_singleton] at hp
      simp [List.filter, hp, List.getLast]
    | cons b l' =>
      have hne : b :: l' ≠ [] := by simp
      rw [List.getLast_cons hne] at hp ⊢
      have hrec := ih hne hp
      have hfne : (b :: l').filter p ≠ [] := by
        intro hnil
        rw [hnil] at hrec
        simp at hrec
      rw [List.filter_cons]
      by_cases hpa : p a
      · simp only [hpa, if_true]
        rw [getLast?_cons_of_ne_nil _ _ hfne]
        exact hrec
      · simp only [hpa]
        simp only [Bool.false_eq_true, if_false]
        exact hrec

end Fomc

/-- C1: on a price series with strictly increasing epoch-second keys
`t1 < … < tn`, the as-of resolution `series.loc[:t].iloc[-1]` used by the
pipeline returns unavailable for `t < t1`, the price at `tn` for
`t ≥ tn`, and the price at `ti` whenever `ti ≤ t < t(i+1)`. -/
theorem asOf_resolution (s : List (ℤ × ℚ))
    (hs : s.Pairwise (fun a b => a.1 < b.1)) (t : ℤ) :
    (∀ hne : s ≠ [], t < (s.head hne).1 → asOf s t = none) ∧
    (∀ hne : s ≠ [], (s.getLast hne).1 ≤ t → asOf s t = some (s.getLast hne).2) ∧
    (∀ (i : ℕ) (hi1 : i < s.length) (hi2 : i + 1 < s.length),
      s[i].1 ≤ t → t < s[i + 1].1 → asOf s t = some s[i].2) := by
  have hpw := List.pairwise_iff_getElem.mp hs
  refine ⟨?_, ?_, ?_⟩
  · intro hne hlt
    have hall : ∀ a ∈ s, ¬((fun p : ℤ × ℚ => decide (p.1 ≤ t)) a = true) := by
      intro a ha
      simp only [decide_eq_true_eq]
      obtain ⟨hd, tl, rfl⟩ := List.exists_cons_of_ne_nil hne
      simp only [List.head_cons] at hlt
      rcases List.mem_cons.mp ha with rfl | hmem
      · omega
      · have := (List.pairwise_cons.mp hs).1 a hmem
        omega
    rw [asOf, List.filter_eq_nil_iff.mpr hall]
    rfl
  · intro hne hle
    rw [asOf, getLast?_filter_of_last _ s hne (decide_eq_true hle)]
    rfl
  · intro i hi1 hi2 hle hlt
    have hfilter : s.filter (fun p => decide (p.1 ≤ t)) = s.take (i + 1) := by
      conv_lhs => rw [← List.take_append_drop (i + 1) s]
      rw [List.filter_append]
      have h1 : (s.take (i + 1)).filter (fun p => decide (p.1 ≤ t)) =
          s.take (i + 1) := by
        rw [List.filter_eq_self]
        intro a ha
        simp only [decide_eq_true_eq]
        obtain ⟨j, hj, hja⟩ := List.mem_iff_getElem.mp ha
        have hjlen : j < i + 1 := by
          simp only [List.length_take] at hj
          omega
        rw [List.getElem_take] at hja
        rcases Nat.lt_or_ge j i with hji | hji
        · have hlt2 := hpw j i (by omega) hi1 hji
          simp only at hlt2
          rw [← hja]
          omega
        · have : j = i := by omega
          subst this
          rw [← hja]
          exact hle
      have h2 : (s.drop (i + 1)).filter (fun p => decide (p.1 ≤ t)) = [] := by
        rw [List.filter_eq_nil_iff]
        intro a ha
        simp only [decide_eq_true_eq]
        obtain ⟨j, hj, hja⟩ := List.mem_iff_getElem.mp ha
        have hjlen : i + 1 + j < s.length := by
          simp only [List.length_drop] at hj
          omega
        rw [List.getElem_drop] at hja
        rcases Nat.eq_zero_or_pos j with rfl | hj0
        · rw [← hja]
          simpa using hlt
        · have hlt2 := hpw (i + 1) (i + 1 + j) hi2 hjlen (by omega)
          simp only at hlt2
          rw [← hja]
          omega
      rw [h1, h2, List.append_nil]
    rw [asOf, hfilter, List.getLast?_eq_getElem?]
    have hlen : (s.take (i + 1)).length = i + 1 := by
      simp only [List.length_take]
      omega
    rw [hlen]
    simp only [Nat.add_sub_cancel, List.getElem?_take, Nat.lt_succ_self, if_true]
    rw [List.getElem?_eq_getElem hi1]
    rfl

/-- Witness for C1: each of the three regimes on the two-point series
`{10 ↦ 1, 20 ↦ 2}`. -/
theorem asOf_resolution_witness :
    asOf [((10 : ℤ), (1 : ℚ)), (20, 2)] 5 = none ∧
    asOf [((10 : ℤ), (1 : ℚ)), (20, 2)] 25 = some 2 ∧
    asOf [((10 : ℤ), (1 : ℚ)), (20, 2)] 15 = some 1 := by
  have hpw : ([((10 : ℤ), (1 : ℚ)), (20, 2)]).Pairwise
      (fun a b => a.1 < b.1) := by decide
  exact ⟨(asOf_resolution _ hpw 5).1 (by decide) (by decide),
    (asOf_resolution _ hpw 25).2.1 (by decide) (by decide),
    (asOf_resolution _ hpw 15).2.2 0 (by decide) (by decide) (by decide)
      (by decide)⟩

/-- C4: for every meeting whose pre- and post-window prices were resolved
(and a calendar-valid day-of-month), the SurpriseRecord satisfies
`implied = 100 - price` for both windows,
`delta_bps = (implied_post - implied_pre) * 100`,
`days_remaining = D - d + 1` with `D` the days in the meeting's month,
`scaling_factor = D / days_remaining`, and
`target_surprise_bps = delta_bps * scaling_factor`. -/
theorem surprise_record_formulas (year month day : ℕ) (t0 : ℤ)
    (df_day : List Tick) (p q : ℚ)
    (hd1 : 1 ≤ day) (hd2 : day ≤ monthrangeDays year month)
    (hp : (compute_for_meeting year month day t0 df_day).price_pre = some p)
    (hq : (compute_for_meeting year month day t0 df_day).price_post = some q) :
    (compute_for_meeting year month day t0 df_day).implied_pre =
      some (100 - p) ∧
    (compute_for_meeting year month day t0 df_day).implied_post =
      some (100 - q) ∧
    (compute_for_meeting year month day t0 df_day).delta_implied_bps =
      some (((100 - q) - (100 - p)) * 100) ∧
    (compute_for_meeting year month day t0 df_day).days_in_month =
      monthrangeDays year month ∧
    (compute_for_meeting year month day t0 df_day).days_remaining_after_announcement =
      (monthrangeDays year month : ℤ) - day + 1 ∧
    (compute_for_meeting year month day t0 df_day).scaling_factor =
      some ((monthrangeDays year month : ℚ) /
        ((monthrangeDays year month : ℚ) - day + 1)) ∧
    (compute_for_meeting year month day t0 df_day).target_surprise_bps =
      some ((((100 - q) - (100 - p)) * 100) *
        ((monthrangeDays year month : ℚ) /
          ((monthrangeDays year month : ℚ) - day + 1))) := by
  have h0 : (0 : ℤ) < (monthrangeDays year month : ℤ) - day + 1 := by omega
  have hcast : (((monthrangeDays year month : ℤ) - day + 1 : ℤ) : ℚ)
      = (monthrangeDays year month : ℚ) - day + 1 := by push_cast; ring
  rcases hA : resolve_for_symbol df_day (t0 - PRE_SEC * nsPerSec) (t0 - 1000000)
      t0 (t0 + POST_SEC * nsPerSec) (zq_symbol_for_meeting year month)
    with _ | ⟨pp, qq⟩
  · rcases hB : resolve_for_symbol df_day (t0 - PRE_SEC * nsPerSec)
        (t0 - 1000000) t0 (t0 + POST_SEC * nsPerSec)
        (zq_next_month_symbol year month)
      with _ | ⟨pp, qq⟩
    · simp only [compute_for_meeting, hA, hB] at hp
      simp at hp
    · simp only [compute_for_meeting, hA, hB] at hp hq ⊢
      simp only [Option.some.injEq] at hp hq
      subst hp hq
      simp only [if_pos h0, Option.map_some, Option.some.injEq, hcast]
      exact ⟨trivial, trivial, trivial, trivial, trivial, trivial, by simp⟩
  · simp only [compute_for_meeting, hA] at hp hq ⊢
    simp only [Option.some.injEq] at hp hq
    subst hp hq
    simp only [if_pos h0, Option.map_some, Option.some.injEq, hcast]
    exact ⟨trivial, trivial, trivial, trivial, trivial, trivial, by simp⟩

/-- Witness for C4: a meeting on 2025-09-30 (last day of a 30-day month,
`days_remaining = 1`, `scaling_factor = 30`) and one on 2025-08-01
(day 1 of a 31-day month, `days_remaining = 31`, `scaling_factor = 1`),
each with a resolved pre price 99 and post price 98. -/
theorem surprise_record_formulas_witness :
    (compute_for_meeting 2025 9 30 1000000000000
        [⟨"ZQU5", 998000000000, 99⟩, ⟨"ZQU5", 1001000000000, 98⟩]).days_remaining_after_announcement = 1 ∧
    (compute_for_meeting 2025 9 30 1000000000000
        [⟨"ZQU5", 998000000000, 99⟩, ⟨"ZQU5", 1001000000000, 98⟩]).scaling_factor = some 30 ∧
    (compute_for_meeting 2025 9 30 1000000000000
        [⟨"ZQU5", 998000000000, 99⟩, ⟨"ZQU5", 1001000000000, 98⟩]).implied_pre = some 1 ∧
    (compute_for_meeting 2025 9 30 1000000000000
        [⟨"ZQU5", 998000000000, 99⟩, ⟨"ZQU5", 1001000000000, 98⟩]).delta_implied_bps = some 100 ∧
    (compute_for_meeting 2025 9 30 1000000000000
        [⟨"ZQU5", 998000000000, 99⟩, ⟨"ZQU5", 1001000000000, 98⟩]).target_surprise_bps = some 3000 ∧
    (compute_for_meeting 2025 8 1 1000000000000
        [⟨"ZQQ5", 998000000000, 99⟩, ⟨"ZQQ5", 1001000000000, 98⟩]).days_remaining_after_announcement = 31 ∧
    (compute_for_meeting 2025 8 1 1000000000000
        [⟨"ZQQ5", 998000000000, 99⟩, ⟨"ZQQ5", 1001000000000, 98⟩]).scaling_factor = some 1 := by
  obtain ⟨e1, e2, e3, e4, e5, e6, e7⟩ :=
    surprise_record_formulas 2025 9 30 1000000000000
      [⟨"ZQU5", 998000000000, 99⟩, ⟨"ZQU5", 1001000000000, 98⟩] 99 98
      (by norm_num) (by decide) (by decide) (by decide)
  obtain ⟨f1, f2, f3, f4, f5, f6, f7⟩ :=
    surprise_record_formulas 2025 8 1 1000000000000
      [⟨"ZQQ5", 998000000000, 99⟩, ⟨"ZQQ5", 1001000000000, 98⟩] 99 98
      (by norm_num) (by decide) (by decide) (by decide)
  refine ⟨?_, ?_, ?_, ?_, ?_, ?_, ?_⟩
  · rw [e5]; decide
  · rw [e6]; norm_num [monthrangeDays]
  · rw [e1]; norm_num
  · rw [e3]; norm_num
  · rw [e7]; norm_num [monthrangeDays]
  · rw [f5]; decide
  · rw [f6]; norm_num [monthrangeDays]

/-- C5: `compute_for_meeting` tries the primary (meeting-month) symbol
first — if it yields both a pre and a post price it is used; only when it
fails is the fallback (next-month) symbol consulted, and a fallback
success leaves `notes` empty; when both candidates fail the record is a
recoverable "no data" outcome: `symbol_used = none`, price-derived fields
unavailable, `notes` populated. -/
theorem compute_for_meeting_fallback_chain (year month day : ℕ) (t0 : ℤ)
    (df_day : List Tick) :
    (∀ pq : ℚ × ℚ,
      resolve_for_symbol df_day (t0 - PRE_SEC * nsPerSec) (t0 - 1000000) t0
          (t0 + POST_SEC * nsPerSec) (zq_symbol_for_meeting year month) =
            some pq →
        (compute_for_meeting year month day t0 df_day).symbol_used =
            some (zq_symbol_for_meeting year month) ∧
          (compute_for_meeting year month day t0 df_day).notes = "") ∧
    (∀ pq : ℚ × ℚ,
      resolve_for_symbol df_day (t0 - PRE_SEC * nsPerSec) (t0 - 1000000) t0
          (t0 + POST_SEC * nsPerSec) (zq_symbol_for_meeting year month) =
            none →
      resolve_for_symbol df_day (t0 - PRE_SEC * nsPerSec) (t0 - 1000000) t0
          (t0 + POST_SEC * nsPerSec) (zq_next_month_symbol year month) =
            some pq →
        (compute_for_meeting year month day t0 df_day).symbol_used =
            some (zq_next_month_symbol year month) ∧
          (compute_for_meeting year month day t0 df_day).notes = "") ∧
    (resolve_for_symbol df_day (t0 - PRE_SEC * nsPerSec) (t0 - 1000000) t0
          (t0 + POST_SEC * nsPerSec) (zq_symbol_for_meeting year month) =
            none →
      resolve_for_symbol df_day (t0 - PRE_SEC * nsPerSec) (t0 - 1000000) t0
          (t0 + POST_SEC * nsPerSec) (zq_next_month_symbol year month) =
            none →
        (compute_for_meeting year month day t0 df_day).symbol_used = none ∧
        (compute_for_meeting year month day t0 df_day).price_pre = none ∧
        (compute_for_meeting year month day t0 df_day).price_post = none ∧
        (compute_for_meeting year month day t0 df_day).implied_pre = none ∧
        (compute_for_meeting year month day t0 df_day).implied_post = none ∧
        (compute_for_meeting year month day t0 df_day).delta_implied_bps = none ∧
        (compute_for_meeting year month day t0 df_day).target_surprise_bps = none ∧
        (compute_for_meeting year month day t0 df_day).notes =
          "no trades for meeting-month or next-month symbol in event window" ∧
        (compute_for_meeting year month day t0 df_day).notes ≠ "") := by
  refine ⟨?_, ?_, ?_⟩
  · intro pq hpq
    obtain ⟨p1, p2⟩ := pq
    simp only [compute_for_meeting, hpq]
    exact ⟨trivial, trivial⟩
  · intro pq hpri halt
    obtain ⟨p1, p2⟩ := pq
    simp only [compute_for_meeting, hpri, halt]
    exact ⟨trivial, trivial⟩
  · intro hpri halt
    simp only [compute_for_meeting, hpri, halt]
    refine ⟨trivial, trivial, trivial, trivial, trivial, trivial, trivial,
      trivial, by simp⟩

/-- Witness for C5: the spec's 2023-11-01 scenario — no trades for the
primary `ZQX3`, trades for the fallback `ZQZ3` in both windows; and the
all-fail path on an empty tick list. -/
theorem compute_for_meeting_fallback_chain_witness :
    zq_symbol_for_meeting 2023 11 = "ZQX3" ∧
    zq_next_month_symbol 2023 11 = "ZQZ3" ∧
    (compute_for_meeting 2023 11 1 1000000000000
        [⟨"ZQZ3", 998000000000, 99⟩, ⟨"ZQZ3", 1001000000000, 98⟩]).symbol_used =
      some (zq_next_month_symbol 2023 11) ∧
    (compute_for_meeting 2023 11 1 1000000000000
        [⟨"ZQZ3", 998000000000, 99⟩, ⟨"ZQZ3", 1001000000000, 98⟩]).notes = "" ∧
    (compute_for_meeting 2023 11 1 1000000000000 []).symbol_used = none ∧
    (compute_for_meeting 2023 11 1 1000000000000 []).notes ≠ "" := by
  have h2 := (compute_for_meeting_fallback_chain 2023 11 1 1000000000000
      [⟨"ZQZ3", 998000000000, 99⟩, ⟨"ZQZ3", 1001000000000, 98⟩]).2.1
    (99, 98) (by decide) (by decide)
  have h3 := (compute_for_meeting_fallback_chain 2023 11 1
      1000000000000 []).2.2 (by decide) (by decide)
  exact ⟨by decide, by decide, h2.1, h2.2, h3.1, h3.2.2.2.2.2.2.2.2⟩

/-- C9 amended: only the ZQ reader of `build_zq_surprise.py` filters tick
symbols — every tick surviving `read_ticks` matches `^ZQ[A-Z]\d$` — while
the ES/ZT price cache of `run_horizon_sweep.py` never consults the symbol
column: rewriting every tick's symbol arbitrarily leaves the built series
unchanged. -/
theorem symbol_filter_only_in_zq_reader :
    (∀ ticks : List Tick,
      (read_ticks ticks).all (fun t => matchesZQ t.symbol) = true) ∧
    (∀ (sym : String) (ticks : List Tick) (f : Tick → String),
      build_price_cache_entry sym
          (ticks.map fun t =>
            { symbol := f t, ts_event := t.ts_event, price := t.price }) =
        build_price_cache_entry sym ticks) := by
  constructor
  · intro ticks
    rw [List.all_eq_true]
    intro x hx
    have hmem := (mem_sortBy _ x _).mp hx
    exact (List.mem_filter.mp hmem).2
  · intro sym ticks f
    simp only [build_price_cache_entry, List.map_map]
    rfl
